import Mathlib

/-!
# Extendable watchdog timer (`timeout.go`)

A shallow embedding of the `Timeout` object of package `longpoll` and of its
monitor goroutine `handle`.

* `Timeout` and its methods `now`, `elapsed`, `IsAlive`, `Ping`, `Drop`,
  `ReportChan` are pure functions on the record; the wall clock reading that
  `time.Now().UnixNano()` would return is passed in explicitly.
* `NewTimeout` returns the Go result pair together with the list of
  `go tor.handle(..)` statements it executed.
* The monitor `handle` is a small-step machine: one program counter per atomic
  step of the source (`PC`), stepped by `World.handle`.
* Concurrency is modelled by schedules: a `List Action` interleaves monitor
  steps with caller operations (`Ping`, `Drop`, `IsAlive`, `ReportChan`, a
  non-blocking receive from the report channel) and with clock ticks.
* `idealStep` / `idealRun` run the monitor alone under a clock that advances
  exactly by each sleep.

`int64` arithmetic is modelled on `Int` with explicit wrap-around (`wrap64`),
Go's truncating division by `Int.tdiv`.
-/

namespace Longpoll

/-! ## Data model -/

/-- Modelled from the spec: the constant `no` that `timeout.go` stores into the
`alive` flag is declared outside the given sources; the spec encodes the boolean
as 0/1, dead being 0. -/
def no : Int := 0

/-- Modelled from the spec: the constant `yes` that `timeout.go` compares the
`alive` flag with is declared outside the given sources; the spec encodes the
boolean as 0/1, alive being 1. -/
def yes : Int := 1

/-- Two's complement wrap-around of a mathematical integer into `int64`. -/
def wrap64 (x : Int) : Int := (x + 2 ^ 63) % 2 ^ 64 - 2 ^ 63

/-- The struct `Timeout` (timeout.go:22-27).  `report` is the content of the
buffered channel `make(chan bool, 1)`, oldest value first; `onTimeout` is `none`
for a nil handler and `some f` for the handler identified by `f`. -/
structure Timeout where
  lastping : Int
  alive : Int
  report : List Bool
  onTimeout : Option Nat
  deriving DecidableEq, Repr

/-- Capacity of the report channel, `make(chan bool, 1)` (timeout.go:36). -/
def reportCap : Nat := 1

/-- The method `now` (timeout.go:96-98): `time.Now().UnixNano()`, the reading of
the wall clock, which is an input of the model. -/
def Timeout.now (_tor : Timeout) (clock : Int) : Int := clock

/-- The method `IsAlive` (timeout.go:74-76): `atomic.LoadInt32(&tor.alive) == yes`. -/
def Timeout.IsAlive (tor : Timeout) : Bool := decide (tor.alive = yes)

/-- The method `elapsed` (timeout.go:92-94): `tor.now() - lastping` in `int64`. -/
def Timeout.elapsed (tor : Timeout) (clock : Int) : Int :=
  wrap64 (tor.now clock - tor.lastping)

/-- The method `Ping` (timeout.go:54-58): store the clock reading into `lastping`
when the watchdog is alive, do nothing otherwise. -/
def Timeout.Ping (tor : Timeout) (clock : Int) : Timeout :=
  if tor.IsAlive then { tor with lastping := tor.now clock } else tor

/-- The method `ReportChan` (timeout.go:62-64), seen through the buffer content. -/
def Timeout.ReportChan (tor : Timeout) : List Bool := tor.report

/-- The method `Drop` (timeout.go:69-71): `atomic.StoreInt32(&tor.alive, no)`. -/
def Timeout.Drop (tor : Timeout) : Timeout := { tor with alive := no }

/-- What `NewTimeout` leaves behind: the returned pointer (`none` for nil), the
returned error (`none` for nil) and the arguments of the `go tor.handle(..)`
statements it executed, one entry per started monitor. -/
structure NewResult where
  tor : Option Timeout
  err : Option String
  started : List Int
  deriving DecidableEq, Repr

/-- The constructor `NewTimeout` (timeout.go:30-42), run at clock reading `clock`. -/
def NewTimeout (timeout : Int) (onTimeout : Option Nat) (clock : Int) : NewResult :=
  if timeout ≤ 0 then
    { tor := none, err := some "positive timeout value expected", started := [] }
  else
    let tor : Timeout := { lastping := 0, alive := yes, report := [], onTimeout := onTimeout }
    let tor := tor.Ping clock
    { tor := some tor, err := none, started := [timeout] }

/-! ## The monitor as a step machine -/

/-- Program counter of `handle` (timeout.go:78-90), one value per atomic step. -/
inductive PC
  /-- line 79: `hundredth := timeout / 100` -/
  | start
  /-- line 80, first conjunct: `tor.elapsed() < timeout` -/
  | loopElapsed
  /-- line 80, second conjunct: `tor.IsAlive()` -/
  | loopAlive
  /-- line 81: `time.Sleep(time.Duration(hundredth))` -/
  | sleep
  /-- line 83: `if tor.IsAlive()` -/
  | checkAlive
  /-- line 84: `atomic.StoreInt32(&tor.alive, no)` -/
  | store
  /-- lines 85-87: `if tor.onTimeout != nil { go tor.onTimeout() }` -/
  | dispatch
  /-- line 89: `tor.report <- true` -/
  | send
  /-- `handle` has returned -/
  | done
  deriving DecidableEq, Repr

/-- One watchdog together with its monitor goroutine and its environment.
`fired` lists the handlers started by `go tor.onTimeout()`, `sent` the values
ever sent on the report channel (received or not). -/
structure World where
  clock : Int
  tor : Timeout
  pc : PC
  timeout : Int
  hundredth : Int
  fired : List Nat
  sent : List Bool
  deriving DecidableEq, Repr

/-- One atomic step of `handle` (timeout.go:78-90).  The send of line 89 blocks
(the monitor does not move) while the buffer is full.  The sleep of line 81 only
returns here: how far the clock moves meanwhile is decided by the schedule
(`Action.tick`) or by the idealised clock (`idealStep`). -/
def World.handle (w : World) : World :=
  match w.pc with
  | .start => { w with hundredth := Int.tdiv w.timeout 100, pc := .loopElapsed }
  | .loopElapsed =>
      if w.tor.elapsed w.clock < w.timeout then { w with pc := .loopAlive }
      else { w with pc := .checkAlive }
  | .loopAlive =>
      if w.tor.IsAlive then { w with pc := .sleep } else { w with pc := .checkAlive }
  | .sleep => { w with pc := .loopElapsed }
  | .checkAlive =>
      if w.tor.IsAlive then { w with pc := .store } else { w with pc := .send }
  | .store => { w with tor := { w.tor with alive := no }, pc := .dispatch }
  | .dispatch =>
      match w.tor.onTimeout with
      | some f => { w with fired := w.fired ++ [f], pc := .send }
      | none => { w with pc := .send }
  | .send =>
      if w.tor.report.length < reportCap then
        { w with tor := { w.tor with report := w.tor.report ++ [true] },
                 sent := w.sent ++ [true], pc := .done }
      else w
  | .done => w

/-- A caller runs `tor.Ping()`. -/
def World.Ping (w : World) : World := { w with tor := w.tor.Ping w.clock }

/-- A caller runs `tor.Drop()`. -/
def World.Drop (w : World) : World := { w with tor := w.tor.Drop }

/-- A caller runs the non-blocking receive
`select { case <-tor.ReportChan(): default: }` used by the tests. -/
def World.recv (w : World) : World :=
  { w with tor := { w.tor with report := w.tor.ReportChan.tail } }

/-- What can happen next: a caller operation, the clock moving forward by `d`
nanoseconds, or one atomic step of the monitor. -/
inductive Action
  | ping
  | drop
  | isAlive
  | reportChan
  | recv
  | tick (d : Nat)
  | monitor
  deriving DecidableEq, Repr

/-- Effect of one action.  `IsAlive` and `ReportChan` only read. -/
def step (a : Action) (w : World) : World :=
  match a with
  | .ping => w.Ping
  | .drop => w.Drop
  | .isAlive => w
  | .reportChan => w
  | .recv => w.recv
  | .tick d => { w with clock := w.clock + d }
  | .monitor => w.handle

/-- Run a schedule, first action first. -/
def run (sched : List Action) (w : World) : World := sched.foldl (fun w a => step a w) w

/-- The world right after `NewTimeout` returned successfully at clock reading
`clock`: the returned watchdog and the one monitor it started, not yet run. -/
def spawn (timeout : Int) (onTimeout : Option Nat) (clock : Int) : Option World :=
  match NewTimeout timeout onTimeout clock with
  | { tor := some tor, err := none, started := [t] } =>
      some { clock := clock, tor := tor, pc := .start, timeout := t, hundredth := 0,
             fired := [], sent := [] }
  | _ => none

/-- The monitor's loop has exited (lines 83-90 remain). -/
def PC.exited : PC → Bool
  | .checkAlive | .store | .dispatch | .send | .done => true
  | _ => false

/-- Number of monitor steps left once the loop has exited, at most. -/
def PC.remaining : PC → Nat
  | .checkAlive => 4
  | .store => 3
  | .dispatch => 2
  | .send => 1
  | _ => 0

/-- Number of monitor steps in a schedule. -/
def monitorSteps (sched : List Action) : Nat := sched.count Action.monitor

/-- What a caller gets out of the report channel by action `a` in world `w`: the
oldest buffered value for a receive that finds one, nothing otherwise. -/
def observed (a : Action) (w : World) : List Bool :=
  match a with
  | .recv => w.tor.ReportChan.head?.toList
  | _ => []

/-- The values the callers have received from the report channel in the course
of a schedule, in the order of their receipt. -/
def received : List Action → World → List Bool
  | [], _ => []
  | a :: rest, w => observed a w ++ received rest (step a w)

/-- The largest `time.Duration`, `math.MaxInt64` nanoseconds (about 292 years). -/
def maxDuration : Int := 9223372036854775807

/-- Invariant of the report channel: before `handle` has returned nothing was
sent and the buffer is empty; once it has returned exactly `true` was sent, and
the buffer holds it or was emptied by a receive. -/
def ReportInv (w : World) : Prop :=
  (w.pc = .done → w.sent = [true] ∧ (w.tor.report = [] ∨ w.tor.report = [true])) ∧
  (w.pc ≠ .done → w.sent = [] ∧ w.tor.report = [])

/-- The world while the monitor runs alone after a construction at clock reading
`t0`: `c` nanoseconds later, watchdog untouched, monitor at `pc` with its polling
interval computed. -/
def loopWorld (timeout : Int) (onTimeout : Option Nat) (t0 c : Int) (pc : PC) : World :=
  { clock := t0 + c,
    tor := { lastping := t0, alive := yes, report := [], onTimeout := onTimeout },
    pc := pc, timeout := timeout, hundredth := Int.tdiv timeout 100, fired := [], sent := [] }

/-- Invariant of the handler dispatch: nothing is fired before the dispatch step
of line 86 has run, and afterwards at most the registered handler, once. -/
def FiredInv (w : World) : Prop :=
  (w.pc = .send ∨ w.pc = .done → w.fired = [] ∨ w.fired = w.tor.onTimeout.toList) ∧
  (¬ (w.pc = .send ∨ w.pc = .done) → w.fired = [])

/-- The watchdog is dead, nothing was fired and the monitor has not passed the
post-loop check of line 83 with the flag still set. -/
def Quiet (w : World) : Prop :=
  w.tor.IsAlive = false ∧ w.fired = [] ∧ w.pc ≠ .store ∧ w.pc ≠ .dispatch

/-- The world that `NewTimeout(200ms, f)` leaves at clock reading 1000, `f` being
handler 7. -/
def demoWorld : World := ⟨1000, ⟨1000, yes, [], some 7⟩, .start, 200000000, 0, [], []⟩

/-- The monitor starts, 200 ms pass, the loop check of line 80 finds the
deadline reached and the loop exits. -/
def expirySched : List Action := [.monitor, .tick 200000000, .monitor]

/-! ## The idealised clock -/

/-- One monitor step under a clock that moves only while the monitor sleeps and
then by exactly the requested duration (`time.Sleep` returns at once for a
duration that is not positive). -/
def idealStep (w : World) : World :=
  match w.pc with
  | .sleep =>
      (if 0 < w.hundredth then { w with clock := w.clock + w.hundredth } else w).handle
  | _ => w.handle

/-- Run the monitor alone for `n` steps under the idealised clock. -/
def idealRun : Nat → World → World
  | 0, w => w
  | n + 1, w => idealRun n (idealStep w)

/-! ## Construction -/

/-- C5: `NewTimeout` returns a non-nil error exactly when `timeout ≤ 0`; the
returned watchdog is nil exactly then (so no `Timeout` object and no report
channel exist), no monitor is started exactly then, and there is then no world
to run.  Hence for every `timeout > 0` the error is nil and the watchdog non-nil. -/
theorem NewTimeout_error_iff (timeout : Int) (onTimeout : Option Nat) (clock : Int) :
    ((NewTimeout timeout onTimeout clock).err ≠ none ↔ timeout ≤ 0) ∧
    ((NewTimeout timeout onTimeout clock).tor = none ↔ timeout ≤ 0) ∧
    ((NewTimeout timeout onTimeout clock).started = [] ↔ timeout ≤ 0) ∧
    (spawn timeout onTimeout clock = none ↔ timeout ≤ 0) := by
  by_cases h : timeout ≤ 0
  · simp [NewTimeout, spawn, h]
  · simp [NewTimeout, spawn, h]

/-- C5 at the zero duration of the test and at one minute. -/
theorem NewTimeout_error_iff_witness :
    (NewTimeout 0 none 5).err ≠ none ∧ (NewTimeout 0 none 5).tor = none ∧
    (NewTimeout 0 none 5).started = [] ∧ (NewTimeout 60000000000 none 5).err = none := by
  have h0 := NewTimeout_error_iff 0 none 5
  have h1 := NewTimeout_error_iff 60000000000 none 5
  refine ⟨h0.1.2 (by decide), h0.2.1.2 (by decide), h0.2.2.1.2 (by decide), ?_⟩
  by_contra hne
  exact absurd (h1.1.1 hne) (by decide)

/-- C6: for a positive timeout and any handler, the watchdog returned by
`NewTimeout` is alive, its `lastping` is the clock reading of the construction,
its report channel is empty, it keeps the handler, the error is nil and exactly
one monitor was started, with that timeout. -/
theorem NewTimeout_success (timeout : Int) (onTimeout : Option Nat) (clock : Int)
    (h : 0 < timeout) :
    ∃ tor, (NewTimeout timeout onTimeout clock).tor = some tor ∧
      tor.IsAlive = true ∧ tor.lastping = clock ∧ tor.ReportChan = [] ∧
      tor.onTimeout = onTimeout ∧
      (NewTimeout timeout onTimeout clock).err = none ∧
      (NewTimeout timeout onTimeout clock).started = [timeout] := by
  have hn : ¬ timeout ≤ 0 := not_le.mpr h
  simp [NewTimeout, hn, Timeout.Ping, Timeout.IsAlive, Timeout.now, Timeout.ReportChan]

/-- C6 at one minute, the duration of the test. -/
theorem NewTimeout_success_witness :
    ∃ tor, (NewTimeout 60000000000 none 17).tor = some tor ∧
      tor.IsAlive = true ∧ tor.lastping = 17 ∧ tor.ReportChan = [] ∧
      tor.onTimeout = none ∧
      (NewTimeout 60000000000 none 17).err = none ∧
      (NewTimeout 60000000000 none 17).started = [60000000000] :=
  NewTimeout_success 60000000000 none 17 (by decide)

/-- A successful construction yields this world. -/
theorem spawn_eq (timeout : Int) (onTimeout : Option Nat) (clock : Int) (h : 0 < timeout) :
    spawn timeout onTimeout clock =
      some { clock := clock,
             tor := { lastping := clock, alive := yes, report := [], onTimeout := onTimeout },
             pc := .start, timeout := timeout, hundredth := 0, fired := [], sent := [] } := by
  have hn : ¬ timeout ≤ 0 := not_le.mpr h
  simp [spawn, NewTimeout, hn, Timeout.Ping, Timeout.IsAlive, Timeout.now]

/-- Only a positive timeout spawns a world. -/
theorem spawn_pos {timeout : Int} {onTimeout : Option Nat} {clock : Int} {w0 : World}
    (hs : spawn timeout onTimeout clock = some w0) : 0 < timeout := by
  by_contra hn
  have h : timeout ≤ 0 := not_lt.mp hn
  simp [spawn, NewTimeout, h] at hs

/-! ## Caller operations as single steps -/

/-- C7: `Ping` as one operation.  On a live watchdog `lastping` becomes the
current clock reading and the watchdog stays alive; on a dead one nothing at all
changes.  In both cases the `alive` flag, the report channel, the values sent so
far, the handlers fired so far and the monitor are untouched. -/
theorem Ping_single_operation (w : World) :
    (w.tor.IsAlive = true →
        w.Ping.tor.lastping = w.clock ∧ w.Ping.tor.IsAlive = true) ∧
    (w.tor.IsAlive = false →
        w.Ping = w ∧ w.Ping.tor.lastping = w.tor.lastping ∧ w.Ping.tor.IsAlive = false) ∧
    w.Ping.tor.alive = w.tor.alive ∧
    w.Ping.tor.ReportChan = w.tor.ReportChan ∧
    w.Ping.sent = w.sent ∧ w.Ping.fired = w.fired ∧ w.Ping.pc = w.pc := by
  rcases w with ⟨clock, ⟨lp, al, rep, ot⟩, pc, tmo, hu, fi, se⟩
  by_cases h : al = yes <;>
    simp [World.Ping, Timeout.Ping, Timeout.IsAlive, Timeout.now, Timeout.ReportChan, h]

/-- C7 on a live and on a dead watchdog at clock reading 9. -/
theorem Ping_single_operation_witness :
    (World.Ping ⟨9, ⟨3, yes, [], some 7⟩, .sleep, 200, 2, [], []⟩).tor.lastping = 9 ∧
    World.Ping ⟨9, ⟨3, no, [], some 7⟩, .send, 200, 2, [], []⟩ =
      ⟨9, ⟨3, no, [], some 7⟩, .send, 200, 2, [], []⟩ :=
  ⟨((Ping_single_operation ⟨9, ⟨3, yes, [], some 7⟩, .sleep, 200, 2, [], []⟩).1
      (by decide)).1,
   ((Ping_single_operation ⟨9, ⟨3, no, [], some 7⟩, .send, 200, 2, [], []⟩).2.1
      (by decide)).1⟩

/-- C8: `Drop` as one operation.  Afterwards `IsAlive` is false; `lastping`, the
report channel, the values sent, the handlers fired, the clock and the monitor
are unchanged; on a watchdog that is already dead (its flag, which only ever
holds `yes` or `no`, is not `yes`) the whole state is unchanged; and dropping
twice is dropping once. -/
theorem Drop_single_operation (w : World) :
    w.Drop.tor.IsAlive = false ∧
    w.Drop.tor.lastping = w.tor.lastping ∧
    w.Drop.tor.ReportChan = w.tor.ReportChan ∧
    w.Drop.tor.onTimeout = w.tor.onTimeout ∧
    w.Drop.sent = w.sent ∧ w.Drop.fired = w.fired ∧
    w.Drop.pc = w.pc ∧ w.Drop.clock = w.clock ∧
    ((w.tor.alive = yes ∨ w.tor.alive = no) → w.tor.IsAlive = false → w.Drop = w) ∧
    w.Drop.Drop = w.Drop := by
  refine ⟨by simp [World.Drop, Timeout.Drop, Timeout.IsAlive, no, yes], rfl, rfl, rfl, rfl,
    rfl, rfl, rfl, ?_, rfl⟩
  intro hwf hdead
  have hno : w.tor.alive = no := by
    rcases hwf with hy | hn
    · simp [Timeout.IsAlive, hy] at hdead
    · exact hn
  rcases w with ⟨clock, ⟨lp, al, rep, ot⟩, pc, tmo, hu, fi, se⟩
  simp only at hno
  simp [World.Drop, Timeout.Drop, hno]

/-- C8 on a dead watchdog whose notification is still in the buffer. -/
theorem Drop_single_operation_witness :
    World.Drop ⟨9, ⟨3, no, [true], some 7⟩, .done, 200, 2, [], [true]⟩ =
      ⟨9, ⟨3, no, [true], some 7⟩, .done, 200, 2, [], [true]⟩ :=
  (Drop_single_operation ⟨9, ⟨3, no, [true], some 7⟩, .done, 200, 2, [], [true]⟩).2.2.2.2.2.2.2.2.1
    (Or.inr rfl) (by decide)

/-! ## Monotonicity of the `alive` flag -/

/-- The two values of the flag differ. -/
theorem no_ne_yes : no ≠ yes := by decide

/-- No single action makes a dead watchdog alive. -/
theorem step_dead (a : Action) (w : World) (h : w.tor.IsAlive = false) :
    (step a w).tor.IsAlive = false := by
  rcases w with ⟨clock, ⟨lp, al, rep, ot⟩, pc, tmo, hu, fi, se⟩
  have hal : ¬ al = yes := by simpa [Timeout.IsAlive] using h
  cases a with
  | ping => simp [step, World.Ping, Timeout.Ping, Timeout.IsAlive, hal]
  | drop => simp [step, World.Drop, Timeout.Drop, Timeout.IsAlive, no, yes]
  | isAlive => simpa [step] using h
  | reportChan => simpa [step] using h
  | recv => simpa [step, World.recv] using h
  | tick d => simpa [step] using h
  | monitor =>
    cases pc <;> simp only [step, World.handle] <;> (try split) <;>
      simp_all [Timeout.IsAlive, no_ne_yes]

/-- No schedule makes a dead watchdog alive. -/
theorem run_dead (sched : List Action) :
    ∀ w : World, w.tor.IsAlive = false → (run sched w).tor.IsAlive = false := by
  induction sched with
  | nil => intro w h; simpa [run] using h
  | cons a rest ih =>
    intro w h
    have := ih (step a w) (step_dead a w h)
    simpa [run] using this

/-- No action takes the flag out of its two values `yes` and `no`. -/
theorem step_flag (a : Action) (w : World) (h : w.tor.alive = yes ∨ w.tor.alive = no) :
    (step a w).tor.alive = yes ∨ (step a w).tor.alive = no := by
  rcases w with ⟨clock, ⟨lp, al, rep, ot⟩, pc, tmo, hu, fi, se⟩
  cases a with
  | ping =>
    by_cases hal : al = yes <;>
      simp_all [step, World.Ping, Timeout.Ping, Timeout.IsAlive]
  | drop => simp [step, World.Drop, Timeout.Drop]
  | isAlive => simpa [step] using h
  | reportChan => simpa [step] using h
  | recv => simpa [step, World.recv] using h
  | tick d => simpa [step] using h
  | monitor =>
    cases pc <;> simp only [step, World.handle] <;> (try split) <;> simp_all

/-- In every execution from a successful `NewTimeout` the flag holds `yes` or `no`. -/
theorem flag_yes_or_no (timeout : Int) (onTimeout : Option Nat) (clock : Int)
    (w0 : World) (hs : spawn timeout onTimeout clock = some w0) (sched : List Action) :
    (run sched w0).tor.alive = yes ∨ (run sched w0).tor.alive = no := by
  have key : ∀ (l : List Action) (w : World), (w.tor.alive = yes ∨ w.tor.alive = no) →
      ((run l w).tor.alive = yes ∨ (run l w).tor.alive = no) := by
    intro l
    induction l with
    | nil => intro w h; simpa [run] using h
    | cons a rest ih =>
      intro w h
      have := ih (step a w) (step_flag a w h)
      simpa [run] using this
  rw [spawn_eq timeout onTimeout clock (spawn_pos hs)] at hs
  cases hs
  exact key sched _ (Or.inl rfl)

/-- C9: the `alive` flag is monotonic.  From any state in which `IsAlive()` is
false, no step (`Ping`, `Drop`, `IsAlive`, `ReportChan`, a receive, a clock tick,
an atomic step of the monitor) and no schedule of such steps, in any order,
leads to a state in which `IsAlive()` is true. -/
theorem alive_monotonic (w : World) (h : w.tor.IsAlive = false) :
    (∀ a : Action, (step a w).tor.IsAlive = false) ∧
    (∀ sched : List Action, (run sched w).tor.IsAlive = false) :=
  ⟨fun a => step_dead a w h, fun sched => run_dead sched w h⟩

/-- C9 on a dropped watchdog that is then pinged while its monitor runs on. -/
theorem alive_monotonic_witness :
    (run [.ping, .monitor, .tick 5, .ping, .monitor]
      ⟨9, ⟨3, no, [], some 7⟩, .loopAlive, 200, 2, [], []⟩).tor.IsAlive = false :=
  (alive_monotonic ⟨9, ⟨3, no, [], some 7⟩, .loopAlive, 200, 2, [], []⟩ (by decide)).2
    [.ping, .monitor, .tick 5, .ping, .monitor]

/-! ## Exactly one notification -/

/-- Running a concatenated schedule is running its parts in turn. -/
theorem run_append (s₁ s₂ : List Action) (w : World) :
    run (s₁ ++ s₂) w = run s₂ (run s₁ w) := by
  simp [run, List.foldl_append]

/-- Every action preserves `ReportInv`. -/
theorem reportInv_step (a : Action) (w : World) (h : ReportInv w) : ReportInv (step a w) := by
  rcases w with ⟨clock, ⟨lp, al, rep, ot⟩, pc, tmo, hu, fi, se⟩
  cases a with
  | ping =>
    by_cases hal : al = yes <;>
      simpa [step, World.Ping, Timeout.Ping, Timeout.IsAlive, ReportInv, hal] using h
  | drop => simpa [step, World.Drop, Timeout.Drop, ReportInv] using h
  | isAlive => simpa [step] using h
  | reportChan => simpa [step] using h
  | recv =>
    by_cases hpc : pc = .done
    · rcases h.1 hpc with ⟨hs, hr | hr⟩ <;> simp only at hs hr <;>
        simp [step, World.recv, Timeout.ReportChan, ReportInv, hpc, hs, hr]
    · have := h.2 hpc
      simp only at this hpc
      simp [step, World.recv, Timeout.ReportChan, ReportInv, hpc, this.1, this.2]
  | tick d => simpa [step, ReportInv] using h
  | monitor =>
    cases pc <;> simp only [step, World.handle] <;> (try split) <;>
      simp_all [ReportInv, reportCap]

/-- Every schedule preserves `ReportInv`. -/
theorem reportInv_run (sched : List Action) :
    ∀ w : World, ReportInv w → ReportInv (run sched w) := by
  induction sched with
  | nil => intro w h; simpa [run] using h
  | cons a rest ih =>
    intro w h
    have := ih (step a w) (reportInv_step a w h)
    simpa [run] using this

/-- The world a successful `NewTimeout` leaves satisfies `ReportInv`. -/
theorem reportInv_spawn {timeout : Int} {onTimeout : Option Nat} {clock : Int} {w0 : World}
    (hs : spawn timeout onTimeout clock = some w0) : ReportInv w0 := by
  rw [spawn_eq timeout onTimeout clock (spawn_pos hs)] at hs
  cases hs
  simp [ReportInv]

/-- Once the loop has exited, every action keeps it exited, a monitor step
lowers the number of remaining steps by one and no other action raises it. -/
theorem exited_step (a : Action) (w : World) (hi : ReportInv w) (he : w.pc.exited = true) :
    (step a w).pc.exited = true ∧
    (step a w).pc.remaining ≤ w.pc.remaining - (if a = .monitor then 1 else 0) := by
  rcases w with ⟨clock, ⟨lp, al, rep, ot⟩, pc, tmo, hu, fi, se⟩
  cases a with
  | ping => simpa [step, World.Ping] using he
  | drop => simpa [step, World.Drop] using he
  | isAlive => simpa [step] using he
  | reportChan => simpa [step] using he
  | recv => simpa [step, World.recv] using he
  | tick d => simpa [step] using he
  | monitor =>
    cases pc <;> simp only [step, World.handle] <;> (try split) <;>
      simp_all [ReportInv, reportCap, PC.exited, PC.remaining]

/-- Once the loop has exited, a schedule with `k` monitor steps leaves at most
`remaining - k` monitor steps to do. -/
theorem exited_run (sched : List Action) :
    ∀ w : World, ReportInv w → w.pc.exited = true →
      (run sched w).pc.exited = true ∧
      (run sched w).pc.remaining ≤ w.pc.remaining - monitorSteps sched := by
  induction sched with
  | nil => intro w _ he; simpa [run, monitorSteps] using he
  | cons a rest ih =>
    intro w hi he
    obtain ⟨he1, hr1⟩ := exited_step a w hi he
    obtain ⟨he2, hr2⟩ := ih (step a w) (reportInv_step a w hi) he1
    refine ⟨by simpa [run] using he2, ?_⟩
    have hc : monitorSteps (a :: rest) = monitorSteps rest + (if a = .monitor then 1 else 0) := by
      by_cases ha : a = .monitor
      · subst ha; simp [monitorSteps]
      · have ha2 : ¬ (Action.monitor = a) := fun h => ha h.symm
        simp [monitorSteps, List.count_cons, ha, ha2]
    have : run (a :: rest) w = run rest (step a w) := by simp [run]
    rw [this, hc]
    omega

/-- After the loop has exited with no monitor step left, `handle` has returned. -/
theorem done_of_remaining {pc : PC} (he : pc.exited = true) (hr : pc.remaining = 0) :
    pc = .done := by
  cases pc <;> simp_all [PC.exited, PC.remaining]

/-- Conservation across one action: what was received before, what the action
hands to a caller and what the buffer holds afterwards make up what was sent. -/
theorem conserve_step (a : Action) (w : World) (pre : List Bool)
    (h : pre ++ w.tor.report = w.sent) :
    (pre ++ observed a w) ++ (step a w).tor.report = (step a w).sent := by
  rcases w with ⟨clock, ⟨lp, al, rep, ot⟩, pc, tmo, hu, fi, se⟩
  simp only at h
  cases a with
  | ping =>
    by_cases hal : al = yes <;>
      simp [step, World.Ping, Timeout.Ping, Timeout.IsAlive, observed, hal, h]
  | drop => simp [step, World.Drop, Timeout.Drop, observed, h]
  | isAlive => simp [step, observed, h]
  | reportChan => simp [step, observed, h]
  | recv =>
    cases rep with
    | nil => simpa [step, World.recv, Timeout.ReportChan, observed] using h
    | cons b bs => simpa [step, World.recv, Timeout.ReportChan, observed] using h
  | tick d => simp [step, observed, h]
  | monitor =>
    cases pc <;> simp only [step, World.handle, observed] <;> (try split) <;>
      simp_all [← List.append_assoc]

/-- Conservation across a schedule. -/
theorem conserve_run (sched : List Action) :
    ∀ (w : World) (pre : List Bool), pre ++ w.tor.report = w.sent →
      (pre ++ received sched w) ++ (run sched w).tor.report = (run sched w).sent := by
  induction sched with
  | nil => intro w pre h; simpa [run, received] using h
  | cons a rest ih =>
    intro w pre h
    have := ih (step a w) (pre ++ observed a w) (conserve_step a w pre h)
    simpa [run, received, List.append_assoc] using this

/-- Nothing is received in a schedule without a receive. -/
theorem received_nil (sched : List Action) :
    ∀ w : World, Action.recv ∉ sched → received sched w = [] := by
  induction sched with
  | nil => intro w _; rfl
  | cons a rest ih =>
    intro w h
    have h1 : a ≠ Action.recv := fun e => h (by simp [e])
    have h2 : Action.recv ∉ rest := fun e => h (by simp [e])
    cases a <;> simp_all [received, observed]

/-- C1: in every execution that starts from a successful `NewTimeout`, whatever
the interleaving of monitor steps with `Ping`, `Drop`, reads, receives and clock
ticks: (1) the values ever sent on the report channel are none or the single
value `true`; (2) the one value has been sent exactly when `handle` has returned;
(3) what the callers have received and what the channel still holds make up
exactly what was sent; (4) only the monitor's send step sends, it finds the
buffer empty, it is the step by which `handle` returns, and it leaves exactly
the value `true` in the channel; (5) the send never blocks; (6) the content of
the channel changes only by that send, which puts `true` into it, or by a
receive, which takes `true` out of it; (7) once the monitor's loop has exited,
by expiry or by drop, any continuation in which the monitor gets four more steps
ends with `handle` returned and exactly one `true` sent, which the callers have
received or the channel holds, and which the channel holds if `handle` had not
returned yet and no receive occurs in the continuation. -/
theorem report_exactly_once (timeout : Int) (onTimeout : Option Nat) (clock : Int)
    (w0 : World) (hs : spawn timeout onTimeout clock = some w0) (sched : List Action) :
    ((run sched w0).sent = [] ∨ (run sched w0).sent = [true]) ∧
    ((run sched w0).sent = [true] ↔ (run sched w0).pc = .done) ∧
    (received sched w0 ++ (run sched w0).tor.ReportChan = (run sched w0).sent) ∧
    (∀ a : Action, (step a (run sched w0)).sent ≠ (run sched w0).sent →
        a = .monitor ∧ (run sched w0).pc = .send ∧ (run sched w0).tor.ReportChan = [] ∧
        (step a (run sched w0)).pc = .done ∧ (step a (run sched w0)).sent = [true] ∧
        (step a (run sched w0)).tor.ReportChan = [true]) ∧
    ((run sched w0).pc = .send →
        (step .monitor (run sched w0)).pc = .done ∧
        (step .monitor (run sched w0)).sent = [true] ∧
        (step .monitor (run sched w0)).tor.ReportChan = [true]) ∧
    (∀ a : Action, (step a (run sched w0)).tor.ReportChan ≠ (run sched w0).tor.ReportChan →
        (a = .monitor ∧ (run sched w0).pc = .send ∧ (run sched w0).tor.ReportChan = [] ∧
          (step a (run sched w0)).tor.ReportChan = [true]) ∨
        (a = .recv ∧ (run sched w0).pc = .done ∧ (run sched w0).tor.ReportChan = [true] ∧
          (step a (run sched w0)).tor.ReportChan = [])) ∧
    ((run sched w0).pc.exited = true → ∀ rest : List Action, 4 ≤ monitorSteps rest →
        (run rest (run sched w0)).pc = .done ∧ (run rest (run sched w0)).sent = [true] ∧
        received (sched ++ rest) w0 ++ (run rest (run sched w0)).tor.ReportChan = [true] ∧
        ((run sched w0).pc ≠ .done → Action.recv ∉ rest →
          (run rest (run sched w0)).tor.ReportChan = [true])) := by
  have hi0 : ReportInv w0 := reportInv_spawn hs
  have hc0 : ([] : List Bool) ++ w0.tor.report = w0.sent := by
    have h := hs
    rw [spawn_eq timeout onTimeout clock (spawn_pos hs)] at h
    cases h
    rfl
  have hcons : ∀ l : List Action, received l w0 ++ (run l w0).tor.report = (run l w0).sent := by
    intro l
    simpa using conserve_run l w0 [] hc0
  have hi : ReportInv (run sched w0) := reportInv_run sched w0 hi0
  have hcs := hcons sched
  have hall : ∀ rest : List Action,
      received (sched ++ rest) w0 ++ (run rest (run sched w0)).tor.report
        = (run rest (run sched w0)).sent := by
    intro rest
    have := hcons (sched ++ rest)
    rwa [run_append] at this
  generalize run sched w0 = w at hi hcs hall
  refine ⟨?_, ?_, ?_, ?_, ?_, ?_, ?_⟩
  · by_cases hpc : w.pc = .done
    · exact Or.inr (hi.1 hpc).1
    · exact Or.inl (hi.2 hpc).1
  · constructor
    · intro hsent
      by_contra hpc
      rw [(hi.2 hpc).1] at hsent
      exact absurd hsent (by simp)
    · intro hpc
      exact (hi.1 hpc).1
  · exact hcs
  · intro a hne
    rcases w with ⟨clk, ⟨lp, al, rep, ot⟩, pc, tmo, hu, fi, se⟩
    cases a with
    | ping => exact absurd rfl hne
    | drop => exact absurd rfl hne
    | isAlive => exact absurd rfl hne
    | reportChan => exact absurd rfl hne
    | recv => exact absurd rfl hne
    | tick d => exact absurd rfl hne
    | monitor =>
      cases pc <;> simp only [step, World.handle] at hne ⊢ <;> (try split at hne) <;>
        simp_all [ReportInv, reportCap, Timeout.ReportChan]
  · intro hpc
    rcases w with ⟨clk, ⟨lp, al, rep, ot⟩, pc, tmo, hu, fi, se⟩
    simp only at hpc
    subst hpc
    have := hi.2 (by simp)
    simp_all [step, World.handle, reportCap, Timeout.ReportChan]
  · intro a hne
    rcases w with ⟨clk, ⟨lp, al, rep, ot⟩, pc, tmo, hu, fi, se⟩
    cases a with
    | ping =>
      exfalso
      apply hne
      by_cases hal : al = yes <;>
        simp [step, World.Ping, Timeout.Ping, Timeout.IsAlive, Timeout.ReportChan, hal]
    | drop => exact absurd rfl hne
    | isAlive => exact absurd rfl hne
    | reportChan => exact absurd rfl hne
    | recv =>
      right
      by_cases hpc : pc = .done
      · rcases (hi.1 hpc).2 with hr | hr
        · simp only at hr
          subst hr
          exact absurd rfl hne
        · simp only at hr
          subst hr
          simp [step, World.recv, Timeout.ReportChan, hpc]
      · have hr := (hi.2 hpc).2
        simp only at hr
        subst hr
        exact absurd rfl hne
    | tick d => exact absurd rfl hne
    | monitor =>
      left
      cases pc <;> simp only [step, World.handle] at hne ⊢ <;> (try split at hne) <;>
        simp_all [ReportInv, reportCap, Timeout.ReportChan]
  · intro he rest hrest
    obtain ⟨he2, hr2⟩ := exited_run rest w hi he
    have hrem : w.pc.remaining ≤ 4 := by
      rcases w with ⟨clk, tor, pc, tmo, hu, fi, se⟩
      cases pc <;> simp [PC.remaining]
    have hdone : (run rest w).pc = .done := done_of_remaining he2 (by omega)
    have hsent : (run rest w).sent = [true] := ((reportInv_run rest w hi).1 hdone).1
    refine ⟨hdone, hsent, ?_, ?_⟩
    · have := hall rest
      rw [hsent] at this
      exact this
    · intro hnd hnr
      have hw := hi.2 hnd
      have hc : ([] : List Bool) ++ w.tor.report = w.sent := by rw [hw.1, hw.2]; rfl
      have := conserve_run rest w [] hc
      rw [received_nil rest w hnr, hsent] at this
      simpa [Timeout.ReportChan] using this

/-- C1 on a watchdog with a 200 ns timeout that is dropped twice and pinged
while its monitor runs: one `true` is sent and sits in the channel; a receive
then takes it out, and a second receive finds nothing. -/
theorem report_exactly_once_witness :
    spawn 200 (some 7) 1000 = some ⟨1000, ⟨1000, yes, [], some 7⟩, .start, 200, 0, [], []⟩ ∧
    (run [.monitor, .monitor, .drop, .monitor, .drop, .monitor, .ping, .monitor, .drop]
      ⟨1000, ⟨1000, yes, [], some 7⟩, .start, 200, 0, [], []⟩).sent = [true] ∧
    (run [.monitor, .monitor, .drop, .monitor, .drop, .monitor, .ping, .monitor, .drop]
      ⟨1000, ⟨1000, yes, [], some 7⟩, .start, 200, 0, [], []⟩).tor.ReportChan = [true] ∧
    received [.monitor, .monitor, .drop, .monitor, .drop, .monitor, .ping, .monitor, .drop,
        .recv, .recv]
      ⟨1000, ⟨1000, yes, [], some 7⟩, .start, 200, 0, [], []⟩ = [true] ∧
    (run [.monitor, .monitor, .drop, .monitor, .drop, .monitor, .ping, .monitor, .drop,
        .recv, .recv]
      ⟨1000, ⟨1000, yes, [], some 7⟩, .start, 200, 0, [], []⟩).tor.ReportChan = [] :=
  ⟨by decide,
   ((report_exactly_once 200 (some 7) 1000
      ⟨1000, ⟨1000, yes, [], some 7⟩, .start, 200, 0, [], []⟩ (by decide)
      [.monitor, .monitor, .drop, .monitor, .drop, .monitor, .ping, .monitor, .drop]).2.1).2
    (by decide),
   by decide, by decide, by decide⟩

/-! ## Expiry under the idealised clock -/

/-- Inside the `int64` range `wrap64` is the identity. -/
theorem wrap64_of_range (x : Int) (h1 : -2 ^ 63 ≤ x) (h2 : x < 2 ^ 63) : wrap64 x = x := by
  unfold wrap64
  omega

/-- Running `a + b` steps is running `a` steps and then `b` steps. -/
theorem idealRun_add (a b : Nat) : ∀ w : World, idealRun (a + b) w = idealRun b (idealRun a w) := by
  induction a with
  | zero => intro w; simp [idealRun]
  | succ a ih =>
    intro w
    have : a + 1 + b = (a + b) + 1 := by omega
    rw [this]
    simp [idealRun, ih]

/-- Once `handle` has returned nothing moves any more. -/
theorem idealRun_done (m : Nat) : ∀ w : World, w.pc = .done → idealRun m w = w := by
  induction m with
  | zero => intro w _; rfl
  | succ m ih =>
    intro w h
    have hstep : idealStep w = w := by
      rcases w with ⟨clk, tor, pc, tmo, hu, fi, se⟩
      simp only at h
      subst h
      simp [idealStep, World.handle]
    simp [idealRun, hstep, ih w h]

/-- One pass through the loop body: the deadline is not reached, the watchdog is
alive, the monitor sleeps and the clock moves on by one polling interval. -/
theorem ideal_iter (timeout : Int) (onTimeout : Option Nat) (t0 c : Int)
    (hc0 : 0 ≤ c) (hc : c < timeout) (ht : timeout < 2 ^ 63) (hh : 0 < Int.tdiv timeout 100) :
    idealRun 3 (loopWorld timeout onTimeout t0 c .loopElapsed) =
      loopWorld timeout onTimeout t0 (c + Int.tdiv timeout 100) .loopElapsed := by
  have hw : wrap64 c = c := wrap64_of_range c (by omega) (by omega)
  simp [idealRun, idealStep, World.handle, loopWorld, Timeout.elapsed, Timeout.now,
    Timeout.IsAlive, hw, hc, hh, add_assoc]

/-- The loop exits at the first check at which the deadline is reached. -/
theorem ideal_exit (timeout : Int) (onTimeout : Option Nat) (t0 c : Int)
    (hc : timeout ≤ c) (hc0 : 0 ≤ c) (hr : c < 2 ^ 63) :
    idealRun 1 (loopWorld timeout onTimeout t0 c .loopElapsed) =
      loopWorld timeout onTimeout t0 c .checkAlive := by
  have hw : wrap64 c = c := wrap64_of_range c (by omega) (by omega)
  have hn : ¬ c < timeout := not_lt.mpr hc
  simp [idealRun, idealStep, World.handle, loopWorld, Timeout.elapsed, Timeout.now, hw, hn]

/-- After the loop: the flag is cleared, the handler dispatched, `true` sent. -/
theorem ideal_finish (timeout : Int) (onTimeout : Option Nat) (t0 c : Int) :
    idealRun 4 (loopWorld timeout onTimeout t0 c .checkAlive) =
      { clock := t0 + c,
        tor := { lastping := t0, alive := no, report := [true], onTimeout := onTimeout },
        pc := .done, timeout := timeout, hundredth := Int.tdiv timeout 100,
        fired := onTimeout.toList, sent := [true] } := by
  cases onTimeout <;>
    simp [idealRun, idealStep, World.handle, loopWorld, Timeout.IsAlive, reportCap]

/-- The loop terminates: from any loop head not later than one interval past the
deadline, some number of steps reaches the post-loop check, at an elapsed time
in the window `[timeout, timeout + hundredth)`. -/
theorem ideal_loop (timeout : Int) (onTimeout : Option Nat) (t0 : Int)
    (hh : 0 < Int.tdiv timeout 100) (ht : timeout + Int.tdiv timeout 100 ≤ 2 ^ 63) :
    ∀ (n : Nat) (c : Int), 0 ≤ c → c < timeout + Int.tdiv timeout 100 →
      timeout - c ≤ n * Int.tdiv timeout 100 →
      ∃ (k : Nat) (e : Int), timeout ≤ e ∧ e < timeout + Int.tdiv timeout 100 ∧
        idealRun k (loopWorld timeout onTimeout t0 c .loopElapsed) =
          loopWorld timeout onTimeout t0 e .checkAlive := by
  intro n
  induction n with
  | zero =>
    intro c hc0 hc hn
    simp only [Nat.cast_zero, zero_mul] at hn
    exact ⟨1, c, by omega, hc, ideal_exit timeout onTimeout t0 c (by omega) hc0 (by omega)⟩
  | succ n ih =>
    intro c hc0 hc hn
    by_cases hlt : c < timeout
    · have hn2 : timeout - (c + Int.tdiv timeout 100) ≤ n * Int.tdiv timeout 100 := by
        have : ((n + 1 : Nat) : Int) * Int.tdiv timeout 100
            = n * Int.tdiv timeout 100 + Int.tdiv timeout 100 := by
          push_cast
          ring
        rw [this] at hn
        omega
      obtain ⟨k, e, he1, he2, hk⟩ :=
        ih (c + Int.tdiv timeout 100) (by omega) (by omega) hn2
      refine ⟨3 + k, e, he1, he2, ?_⟩
      rw [idealRun_add, ideal_iter timeout onTimeout t0 c hc0 hlt (by omega) hh, hk]
    · exact ⟨1, c, by omega, hc,
        ideal_exit timeout onTimeout t0 c (by omega) hc0 (by omega)⟩

/-- C10, amended: under the idealised clock, with no `Ping` or `Drop` after
construction, for every timeout of at least 100 ns for which `timeout +
timeout/100` does not exceed `2^63` ns (so that no elapsed time read in the loop
wraps around in `int64`), and for every construction time, the monitor's loop
terminates: after some `k` steps the monitor is
at its post-loop check with `elapsed()` in `[timeout, timeout + timeout/100)`,
measured from the construction time; and from some `n` steps on `handle` has
returned, `IsAlive()` is false, a registered handler was started exactly once
(none if none was registered), exactly one `true` was sent and sits in the report
channel, and the clock still shows the reading of the loop exit. -/
theorem ideal_expiry (timeout : Int) (onTimeout : Option Nat) (t0 : Int) (w0 : World)
    (ht : 100 ≤ timeout) (hr : timeout + timeout / 100 ≤ 2 ^ 63)
    (hs : spawn timeout onTimeout t0 = some w0) :
    ∃ k n : Nat, k ≤ n ∧
      (idealRun k w0).pc = .checkAlive ∧
      (idealRun k w0).tor.lastping = t0 ∧
      timeout ≤ (idealRun k w0).tor.elapsed (idealRun k w0).clock ∧
      (idealRun k w0).tor.elapsed (idealRun k w0).clock < timeout + timeout / 100 ∧
      ∀ m : Nat, n ≤ m →
        (idealRun m w0).pc = .done ∧
        (idealRun m w0).tor.IsAlive = false ∧
        (idealRun m w0).fired = onTimeout.toList ∧
        (idealRun m w0).tor.ReportChan = [true] ∧
        (idealRun m w0).sent = [true] ∧
        (idealRun m w0).clock = (idealRun k w0).clock := by
  have hdiv : Int.tdiv timeout 100 = timeout / 100 :=
    Int.tdiv_eq_ediv (by omega) (by omega)
  have hh : 0 < Int.tdiv timeout 100 := by
    rw [hdiv]
    omega
  rw [spawn_eq timeout onTimeout t0 (by omega)] at hs
  cases hs
  have hstart : idealRun 1 (⟨t0, ⟨t0, yes, [], onTimeout⟩, .start, timeout, 0, [], []⟩ : World)
      = loopWorld timeout onTimeout t0 0 .loopElapsed := by
    simp [idealRun, idealStep, World.handle, loopWorld]
  have hcover : timeout - 0 ≤ (timeout.toNat : Int) * Int.tdiv timeout 100 := by
    have h1 : (timeout.toNat : Int) = timeout := Int.toNat_of_nonneg (by omega)
    rw [h1]
    nlinarith
  obtain ⟨k, e, he1, he2, hk⟩ := ideal_loop timeout onTimeout t0 hh (by rw [hdiv]; omega)
    timeout.toNat 0 le_rfl (by omega) hcover
  have hw : wrap64 e = e :=
    wrap64_of_range e (by omega) (by rw [hdiv] at he2; omega)
  have hK : idealRun (1 + k) (⟨t0, ⟨t0, yes, [], onTimeout⟩, .start, timeout, 0, [], []⟩ : World)
      = loopWorld timeout onTimeout t0 e .checkAlive := by
    rw [idealRun_add, hstart, hk]
  refine ⟨1 + k, 1 + k + 4, by omega, ?_, ?_, ?_, ?_, ?_⟩
  · rw [hK]; rfl
  · rw [hK]; rfl
  · rw [hK]
    simpa [loopWorld, Timeout.elapsed, Timeout.now, hw] using he1
  · rw [hK]
    rw [hdiv] at he2
    simpa [loopWorld, Timeout.elapsed, Timeout.now, hw] using he2
  · intro m hm
    obtain ⟨j, rfl⟩ : ∃ j, m = (1 + k + 4) + j := ⟨m - (1 + k + 4), by omega⟩
    rw [idealRun_add, idealRun_add (1 + k) 4, hK, ideal_finish, idealRun_done j _ rfl]
    simp [Timeout.IsAlive, Timeout.ReportChan, loopWorld, no_ne_yes]

/-- C10 at 200 ms: the theorem applies, the polling interval is 2 ms, and the
loop exits after 100 sleeps with `elapsed()` equal to 200 ms exactly, inside
`[200 ms, 210 ms)`. -/
theorem ideal_expiry_witness :
    spawn 200000000 (some 7) 1000 = some demoWorld ∧
    (idealRun 1 demoWorld).hundredth = 2000000 ∧
    (idealRun 302 demoWorld).pc = .checkAlive ∧
    (idealRun 302 demoWorld).tor.elapsed (idealRun 302 demoWorld).clock = 200000000 ∧
    ∃ k n : Nat, k ≤ n ∧
      (idealRun k demoWorld).pc = .checkAlive ∧
      (idealRun k demoWorld).tor.lastping = 1000 ∧
      200000000 ≤ (idealRun k demoWorld).tor.elapsed (idealRun k demoWorld).clock ∧
      (idealRun k demoWorld).tor.elapsed (idealRun k demoWorld).clock
        < 200000000 + 200000000 / 100 ∧
      ∀ m : Nat, n ≤ m →
        (idealRun m demoWorld).pc = .done ∧
        (idealRun m demoWorld).tor.IsAlive = false ∧
        (idealRun m demoWorld).fired = (some 7).toList ∧
        (idealRun m demoWorld).tor.ReportChan = [true] ∧
        (idealRun m demoWorld).sent = [true] ∧
        (idealRun m demoWorld).clock = (idealRun k demoWorld).clock := by
  refine ⟨by decide, by decide, ?_, ?_, ?_⟩
  · set_option maxRecDepth 100000 in decide
  · set_option maxRecDepth 100000 in decide
  · exact ideal_expiry 200000000 (some 7) 1000 demoWorld (by decide) (by decide) (by decide)

/-- At the largest duration `elapsed()` never reaches the timeout while the
monitor runs alone under the idealised clock: the polling interval is even, so
every elapsed time is even, in `int64` as well, and the timeout is odd and the
largest `int64`.  The loop is never left. -/
theorem ideal_overflow_loop (onTimeout : Option Nat) (t0 : Int) (n : Nat) :
    (idealRun n ⟨t0, ⟨t0, yes, [], onTimeout⟩, .start, maxDuration, 0, [], []⟩).pc.exited
        = false ∧
    (idealRun n ⟨t0, ⟨t0, yes, [], onTimeout⟩, .start, maxDuration, 0, [], []⟩).tor.IsAlive
        = true ∧
    (idealRun n ⟨t0, ⟨t0, yes, [], onTimeout⟩, .start, maxDuration, 0, [], []⟩).sent = [] ∧
    (idealRun n ⟨t0, ⟨t0, yes, [], onTimeout⟩, .start, maxDuration, 0, [], []⟩).fired = [] := by
  have hh : Int.tdiv maxDuration 100 = 92233720368547758 := by decide
  have hlt : ∀ c : Int, c % 2 = 0 → wrap64 c < maxDuration := by
    intro c hc
    unfold wrap64 maxDuration
    omega
  have key : ∀ (m : Nat) (pc : PC) (c : Int),
      pc = .loopElapsed ∨ pc = .loopAlive ∨ pc = .sleep → c % 2 = 0 →
      ∃ (pc2 : PC) (c2 : Int), (pc2 = .loopElapsed ∨ pc2 = .loopAlive ∨ pc2 = .sleep) ∧
        idealRun m (loopWorld maxDuration onTimeout t0 c pc)
          = loopWorld maxDuration onTimeout t0 c2 pc2 := by
    intro m
    induction m with
    | zero => intro pc c hpc _; exact ⟨pc, c, hpc, rfl⟩
    | succ m ih =>
      intro pc c hpc hc
      rcases hpc with rfl | rfl | rfl
      · obtain ⟨pc2, c2, h2, he⟩ := ih .loopAlive c (by simp) hc
        refine ⟨pc2, c2, h2, ?_⟩
        rw [← he]
        simp [idealRun, idealStep, World.handle, loopWorld, Timeout.elapsed, Timeout.now,
          hlt c hc]
      · obtain ⟨pc2, c2, h2, he⟩ := ih .sleep c (by simp) hc
        refine ⟨pc2, c2, h2, ?_⟩
        rw [← he]
        simp [idealRun, idealStep, World.handle, loopWorld, Timeout.IsAlive]
      · obtain ⟨pc2, c2, h2, he⟩ :=
          ih .loopElapsed (c + 92233720368547758) (by simp) (by omega)
        refine ⟨pc2, c2, h2, ?_⟩
        rw [← he]
        simp [idealRun, idealStep, World.handle, loopWorld, hh, add_assoc]
  cases n with
  | zero => simp [idealRun, PC.exited, Timeout.IsAlive]
  | succ n =>
    have hstart :
        idealStep (⟨t0, ⟨t0, yes, [], onTimeout⟩, .start, maxDuration, 0, [], []⟩ : World)
          = loopWorld maxDuration onTimeout t0 0 .loopElapsed := by
      simp [idealStep, World.handle, loopWorld]
    obtain ⟨pc2, c2, h2, he⟩ := key n .loopElapsed 0 (by simp) (by decide)
    simp only [idealRun, hstart, he]
    rcases h2 with rfl | rfl | rfl <;> simp [loopWorld, PC.exited, Timeout.IsAlive]

/-- C10 as stated fails at the largest duration, which `NewTimeout` accepts: the
watchdog is constructed at clock reading 1000 with a handler, and however many
steps the monitor runs under the idealised clock, its loop has not exited, the
watchdog is alive, no handler was started and nothing was sent. -/
theorem ideal_expiry_fails_at_maxDuration :
    100 ≤ maxDuration ∧
    spawn maxDuration (some 7) 1000
      = some ⟨1000, ⟨1000, yes, [], some 7⟩, .start, maxDuration, 0, [], []⟩ ∧
    (∀ n : Nat,
      (idealRun n ⟨1000, ⟨1000, yes, [], some 7⟩, .start, maxDuration, 0, [], []⟩).pc.exited
          = false ∧
      (idealRun n ⟨1000, ⟨1000, yes, [], some 7⟩, .start, maxDuration, 0, [], []⟩).tor.IsAlive
          = true ∧
      (idealRun n ⟨1000, ⟨1000, yes, [], some 7⟩, .start, maxDuration, 0, [], []⟩).sent = [] ∧
      (idealRun n ⟨1000, ⟨1000, yes, [], some 7⟩, .start, maxDuration, 0, [], []⟩).fired
          = []) :=
  ⟨by decide, by decide, fun n => ideal_overflow_loop (some 7) 1000 n⟩

/-- Below 100 ns the polling interval is `0`: under the idealised clock the
monitor then never sleeps for any time, the clock stands still and the loop is
never left, so `handle` never returns. -/
theorem ideal_busy_loop (timeout : Int) (onTimeout : Option Nat) (t0 : Int) (w0 : World)
    (h1 : 0 < timeout) (h2 : timeout < 100) (hs : spawn timeout onTimeout t0 = some w0)
    (n : Nat) :
    (idealRun n w0).pc.exited = false ∧ (idealRun n w0).clock = t0 ∧
      (idealRun n w0).tor.IsAlive = true := by
  have hh : Int.tdiv timeout 100 = 0 := by
    rw [Int.tdiv_eq_ediv (by omega) (by omega)]
    omega
  have hw : wrap64 0 = 0 := by decide
  have key : ∀ (m : Nat) (pc : PC), pc = .loopElapsed ∨ pc = .loopAlive ∨ pc = .sleep →
      ∃ pc2, (pc2 = .loopElapsed ∨ pc2 = .loopAlive ∨ pc2 = .sleep) ∧
        idealRun m (loopWorld timeout onTimeout t0 0 pc) = loopWorld timeout onTimeout t0 0 pc2 := by
    intro m
    induction m with
    | zero => intro pc hpc; exact ⟨pc, hpc, rfl⟩
    | succ m ih =>
      intro pc hpc
      rcases hpc with rfl | rfl | rfl
      · obtain ⟨pc2, h2, he⟩ := ih .loopAlive (by simp)
        refine ⟨pc2, h2, ?_⟩
        rw [← he]
        simp [idealRun, idealStep, World.handle, loopWorld, Timeout.elapsed, Timeout.now,
          hw, h1]
      · obtain ⟨pc2, h2, he⟩ := ih .sleep (by simp)
        refine ⟨pc2, h2, ?_⟩
        rw [← he]
        simp [idealRun, idealStep, World.handle, loopWorld, Timeout.IsAlive]
      · obtain ⟨pc2, h2, he⟩ := ih .loopElapsed (by simp)
        refine ⟨pc2, h2, ?_⟩
        rw [← he]
        simp [idealRun, idealStep, World.handle, loopWorld, hh]
  rw [spawn_eq timeout onTimeout t0 h1] at hs
  cases hs
  cases n with
  | zero => simp [idealRun, PC.exited, Timeout.IsAlive]
  | succ n =>
    have hstart : idealStep (⟨t0, ⟨t0, yes, [], onTimeout⟩, .start, timeout, 0, [], []⟩ : World)
        = loopWorld timeout onTimeout t0 0 .loopElapsed := by
      simp [idealStep, World.handle, loopWorld]
    obtain ⟨pc2, h2, he⟩ := key n .loopElapsed (by simp)
    simp only [idealRun, hstart, he]
    rcases h2 with rfl | rfl | rfl <;> simp [loopWorld, PC.exited, Timeout.IsAlive]

/-! ## The handler under free interleaving -/

/-- Every action preserves `FiredInv`. -/
theorem firedInv_step (a : Action) (w : World) (h : FiredInv w) : FiredInv (step a w) := by
  rcases w with ⟨clock, ⟨lp, al, rep, ot⟩, pc, tmo, hu, fi, se⟩
  cases a with
  | ping =>
    by_cases hal : al = yes <;>
      simpa [step, World.Ping, Timeout.Ping, Timeout.IsAlive, FiredInv, hal] using h
  | drop => simpa [step, World.Drop, Timeout.Drop, FiredInv] using h
  | isAlive => simpa [step] using h
  | reportChan => simpa [step] using h
  | recv => simpa [step, World.recv, FiredInv] using h
  | tick d => simpa [step, FiredInv] using h
  | monitor =>
    cases pc <;> simp only [step, World.handle] <;> (try split) <;>
      simp_all [FiredInv]

/-- The handler is started at most once, whatever the interleaving: in every
execution from a successful `NewTimeout` the handlers fired are none or the
registered handler, once; none at all when no handler is registered. -/
theorem fired_at_most_once (timeout : Int) (onTimeout : Option Nat) (clock : Int)
    (w0 : World) (hs : spawn timeout onTimeout clock = some w0) (sched : List Action) :
    (run sched w0).fired = [] ∨ (run sched w0).fired = onTimeout.toList := by
  have key : ∀ (l : List Action) (w : World), FiredInv w → w.tor.onTimeout = onTimeout →
      FiredInv (run l w) ∧ (run l w).tor.onTimeout = onTimeout := by
    intro l
    induction l with
    | nil => intro w h ho; exact ⟨by simpa [run] using h, by simpa [run] using ho⟩
    | cons a rest ih =>
      intro w h ho
      have ho2 : (step a w).tor.onTimeout = onTimeout := by
        rcases w with ⟨clk, ⟨lp, al, rep, ot⟩, pc, tmo, hu, fi, se⟩
        cases a with
        | ping =>
          by_cases hal : al = yes <;>
            simpa [step, World.Ping, Timeout.Ping, Timeout.IsAlive, hal] using ho
        | drop => simpa [step, World.Drop, Timeout.Drop] using ho
        | isAlive => simpa [step] using ho
        | reportChan => simpa [step] using ho
        | recv => simpa [step, World.recv] using ho
        | tick d => simpa [step] using ho
        | monitor =>
          cases pc <;> simp only [step, World.handle] <;> (try split) <;> simp_all
      have := ih (step a w) (firedInv_step a w h) ho2
      simpa [run] using this
  rw [spawn_eq timeout onTimeout clock (spawn_pos hs)] at hs
  cases hs
  obtain ⟨hi, ho⟩ :=
    key sched ⟨clock, ⟨clock, yes, [], onTimeout⟩, .start, timeout, 0, [], []⟩
      (by simp [FiredInv]) rfl
  generalize run sched ⟨clock, ⟨clock, yes, [], onTimeout⟩, .start, timeout, 0, [], []⟩ = w
    at hi ho
  by_cases hpc : w.pc = .send ∨ w.pc = .done
  · rw [← ho]
    exact hi.1 hpc
  · left
    exact hi.2 hpc

/-- Every action preserves `Quiet`. -/
theorem quiet_step (a : Action) (w : World) (h : Quiet w) : Quiet (step a w) := by
  rcases w with ⟨clock, ⟨lp, al, rep, ot⟩, pc, tmo, hu, fi, se⟩
  have hal : ¬ al = yes := by simpa [Timeout.IsAlive] using h.1
  cases a with
  | ping => simpa [step, World.Ping, Timeout.Ping, Timeout.IsAlive, Quiet, hal] using h
  | drop =>
    have := h.2
    simp_all [step, World.Drop, Timeout.Drop, Timeout.IsAlive, Quiet, no_ne_yes]
  | isAlive => simpa [step] using h
  | reportChan => simpa [step] using h
  | recv => simpa [step, World.recv, Quiet, Timeout.IsAlive] using h
  | tick d => simpa [step, Quiet] using h
  | monitor =>
    cases pc <;> simp only [step, World.handle] <;> (try split) <;>
      simp_all [Quiet, Timeout.IsAlive]

/-- A `Drop` that lands before the monitor's post-loop check of line 83 does
suppress the handler: from a dead watchdog whose monitor is not between lines 83
and 86, no schedule ever fires the handler. -/
theorem quiet_never_fires (sched : List Action) :
    ∀ w : World, Quiet w → (run sched w).fired = [] := by
  induction sched with
  | nil => intro w h; simpa [run] using h.2.1
  | cons a rest ih =>
    intro w h
    have := ih (step a w) (quiet_step a w h)
    simpa [run] using this

/-! ## Races between the monitor and its callers -/

/-- C2, evaluated on the code: `NewTimeout(200ms, f)`; the monitor's loop exits
on expiry and its post-loop check of line 83 reads the flag as set; `Drop()` is
then called while `IsAlive()` still returns true; the monitor resumes at line 84
and nevertheless starts the handler.  One notification is sent. -/
theorem drop_race_fires_handler :
    spawn 200000000 (some 7) 1000 = some demoWorld ∧
    (run (expirySched ++ [.monitor]) demoWorld).pc = .store ∧
    (run (expirySched ++ [.monitor]) demoWorld).tor.IsAlive = true ∧
    (run (expirySched ++ [.monitor, .drop]) demoWorld).tor.IsAlive = false ∧
    (run (expirySched ++ [.monitor, .drop]) demoWorld).fired = [] ∧
    (run (expirySched ++ [.monitor, .drop, .monitor, .monitor, .monitor]) demoWorld).fired
      = [7] ∧
    (run (expirySched ++ [.monitor, .drop, .monitor, .monitor, .monitor]) demoWorld).sent
      = [true] ∧
    (run (expirySched ++ [.monitor, .drop, .monitor, .monitor, .monitor]) demoWorld).pc
      = .done := by
  decide

/-- C3, evaluated on the code: the handler is started although the monitor did
not perform the alive-to-dead transition.  `Drop()` clears the flag after the
monitor's check of line 83; the monitor's store of line 84 then finds the flag
already `no` and leaves it `no`, and line 86 starts the handler all the same. -/
theorem handler_fires_after_foreign_store :
    spawn 150 (some 3) 50 = some ⟨50, ⟨50, yes, [], some 3⟩, .start, 150, 0, [], []⟩ ∧
    (run [.monitor, .tick 150, .monitor, .monitor, .drop]
      ⟨50, ⟨50, yes, [], some 3⟩, .start, 150, 0, [], []⟩).pc = .store ∧
    (run [.monitor, .tick 150, .monitor, .monitor, .drop]
      ⟨50, ⟨50, yes, [], some 3⟩, .start, 150, 0, [], []⟩).tor.alive = no ∧
    (run [.monitor, .tick 150, .monitor, .monitor, .drop, .monitor]
      ⟨50, ⟨50, yes, [], some 3⟩, .start, 150, 0, [], []⟩).tor.alive = no ∧
    (run [.monitor, .tick 150, .monitor, .monitor, .drop, .monitor, .monitor]
      ⟨50, ⟨50, yes, [], some 3⟩, .start, 150, 0, [], []⟩).fired = [3] := by
  decide

/-- C4, evaluated on the code: `NewTimeout(200ms, f)` at clock reading 1000; at
reading 200001000 the loop check of line 80 finds the deadline reached; `Ping()`
then runs on the still live watchdog and stores `lastping = 200001000`; the
monitor goes on to lines 83-86 without looking at `lastping` again, marks the
watchdog dead at the same clock reading, 0 ns after the ping, and starts the
handler.  No `Drop` occurs. -/
theorem ping_race_expires_early :
    spawn 200000000 (some 7) 1000 = some demoWorld ∧
    (run expirySched demoWorld).pc = .checkAlive ∧
    (run expirySched demoWorld).tor.IsAlive = true ∧
    (run (expirySched ++ [.ping]) demoWorld).tor.lastping = 200001000 ∧
    (run (expirySched ++ [.ping]) demoWorld).tor.IsAlive = true ∧
    (run (expirySched ++ [.ping, .monitor, .monitor]) demoWorld).tor.IsAlive = false ∧
    (run (expirySched ++ [.ping, .monitor, .monitor]) demoWorld).clock = 200001000 ∧
    (run (expirySched ++ [.ping, .monitor, .monitor]) demoWorld).tor.lastping = 200001000 ∧
    (run (expirySched ++ [.ping, .monitor, .monitor]) demoWorld).tor.elapsed
      (run (expirySched ++ [.ping, .monitor, .monitor]) demoWorld).clock = 0 ∧
    ¬ (demoWorld.timeout ≤
      (run (expirySched ++ [.ping, .monitor, .monitor]) demoWorld).tor.elapsed
        (run (expirySched ++ [.ping, .monitor, .monitor]) demoWorld).clock) ∧
    (run (expirySched ++ [.ping, .monitor, .monitor, .monitor]) demoWorld).fired = [7] := by
  decide

end Longpoll
